import Mathlib

/-!
Verification of the 1962-missal kalendar conflict-resolution rules
(`missal1962/kalendar/rules.py`) against its specification.

The rule functions are shallowly embedded from the Python source.  The
auxiliary data model (`Observance`, `Day`, `Calendar`, the pattern
constants and the `match` primitive live outside the provided source
tree) is modelled from the specification, as flagged on each definition.
-/

namespace Missal

/-- Proleptic Gregorian calendar date, as Python's `datetime.date`:
`year`, `month` (1-12), `day` (1-31). -/
structure Date where
  year : Nat
  month : Nat
  day : Nat
deriving DecidableEq, Repr

/-- Python `calendar.isleap`. -/
def isleap (y : Nat) : Bool :=
  y % 4 == 0 && (y % 100 != 0 || y % 400 == 0)

/-- Length of a month in the given year (Gregorian). -/
def daysInMonth (y m : Nat) : Nat :=
  if m == 2 then (if isleap y then 29 else 28)
  else if m == 4 || m == 6 || m == 9 || m == 11 then 30
  else 31

/-- Days in the months strictly before month `m` of year `y`. -/
def daysBeforeMonth (y m : Nat) : Nat :=
  (List.range (m - 1)).foldl (fun acc i => acc + daysInMonth y (i + 1)) 0

/-- Python `date.toordinal`: day count with `0001-01-01` as day 1. -/
def Date.toOrdinal (d : Date) : Nat :=
  365 * (d.year - 1) + (d.year - 1) / 4 - (d.year - 1) / 100 + (d.year - 1) / 400
    + daysBeforeMonth d.year d.month + d.day

/-- Python `date.weekday`: Monday = 0, ..., Saturday = 5, Sunday = 6. -/
def Date.weekday (d : Date) : Nat :=
  (d.toOrdinal + 6) % 7

/-- Python chronological comparison of dates (lexicographic on
year, month, day). -/
def Date.lt (a b : Date) : Bool :=
  a.year < b.year ∨ (a.year = b.year ∧
    (a.month < b.month ∨ (a.month = b.month ∧ a.day < b.day)))

/-- `a ≤ b` on dates. -/
def Date.le (a b : Date) : Bool :=
  Date.lt a b || a == b

/-- Python `date_ + timedelta(days=1)`. -/
def Date.nextDay (d : Date) : Date :=
  if d.day < daysInMonth d.year d.month then ⟨d.year, d.month, d.day + 1⟩
  else if d.month < 12 then ⟨d.year, d.month + 1, 1⟩
  else ⟨d.year + 1, 1, 1⟩

/-- Modelled from the spec: an `Observance` value (`kalendar.models` is
not in the provided sources).  Attributes per the spec's data model:
stable `id`, `rank` (1-4), `priority` (lower takes precedence),
`flexibility` (`"sancti"` or `"tempora"`), `date`, `lang`. -/
structure Observance where
  id : String
  rank : Nat
  priority : Nat
  flexibility : String
  date : Date
  lang : String
deriving DecidableEq, Repr

/-- Modelled from the spec: a `Day` groups all candidates of one date
into the season-cycle entries (`tempora`) and the full pool (`all`). -/
structure Day where
  date : Date
  tempora : List Observance
  all : List Observance

/-- Modelled from the spec: the year `Calendar` (not in the provided
sources).  Only the two lookups the rules use are modelled: `get_day`
(date -> Day, total since every date of the year has exactly one Day)
and `find_day` (forward scan for the first day matching an id pattern,
here abstracted as the resulting (date, observance) pair). -/
structure Calendar where
  get_day : Date → Day
  find_day : String → Date × Observance

/-- `str.startswith(p)`: computable prefix test on the character
lists underlying the strings. -/
def strStartsWith (s p : String) : Bool := p.data.isPrefixOf s.data

/-- `str.endswith(p)`: computable suffix test on the character lists
underlying the strings. -/
def strEndsWith (s p : String) : Bool := p.data.isSuffixOf s.data

/-- A pattern is a predicate selecting observances (spec:
"an id, a set of ids, or a structural predicate"). -/
abbrev Pattern := Observance → Bool

/-- Modelled from the spec: the `match` primitive (`utils.match` is not
in the provided sources) returns the first candidate satisfying the
pattern, in input order, or nothing. -/
def matchFirst (observances : List Observance) (p : Pattern) : Option Observance :=
  observances.find? p

/-- Pattern selecting an exact id. -/
def byId (pid : String) : Pattern := fun o => o.id == pid

/-- Pattern selecting any of a list of ids. -/
def byIds (pids : List String) : Pattern := fun o => pids.contains o.id

/- Modelled from the spec: the id constants from `constants.common`
(not in the provided sources).  The exact strings are immaterial to the
claims; ids follow the `sancti:`/`tempora:` origin-prefix convention the
spec describes, temporal Sundays end in `-0`. -/

def SANCTI_01_13 : String := "sancti:01-13"
def SANCTI_02_24 : String := "sancti:02-24"
def SANCTI_02_27 : String := "sancti:02-27"
def SANCTI_11_02_1 : String := "sancti:11-02m1"
def SANCTI_12_08 : String := "sancti:12-08"
def SANCTI_12_24 : String := "sancti:12-24"
def SANCTI_12_25_1 : String := "sancti:12-25m1"
def TEMPORA_EPI1_0 : String := "tempora:Epi1-0"
def TEMPORA_PASC0_0 : String := "tempora:Pasc0-0"
def TEMPORA_QUAD6_1 : String := "tempora:Quad6-1"
def TEMPORA_QUAD6_2 : String := "tempora:Quad6-2"
def TEMPORA_QUAD6_3 : String := "tempora:Quad6-3"
def TEMPORA_QUAD6_4 : String := "tempora:Quad6-4"
def TEMPORA_QUAD6_5 : String := "tempora:Quad6-5"
def TEMPORA_QUAD6_6 : String := "tempora:Quad6-6"
def TEMPORA_QUADP3_3 : String := "tempora:Quadp3-3"
def C_10A : String := "commune:C10a"
def C_10B : String := "commune:C10b"
def C_10C : String := "commune:C10c"
def C_10PASC : String := "commune:C10pasc"
def C_10T : String := "commune:C10t"

/-- Modelled from the spec: ids of the Ember days. -/
def EMBER_DAYS : List String :=
  ["tempora:Adv3-3", "tempora:Adv3-5", "tempora:Adv3-6",
   "tempora:Quad1-3", "tempora:Quad1-5", "tempora:Quad1-6",
   "tempora:Pent1-3", "tempora:Pent1-5", "tempora:Pent1-6",
   "tempora:Pent22-3", "tempora:Pent22-5", "tempora:Pent22-6"]

/-- Modelled from the spec: ids of the designated 1st/2nd class feasts
of the Lord. -/
def FEASTS_OF_JESUS_CLASS_1_AND_2 : List String :=
  ["sancti:01-06", "sancti:08-06", "sancti:11-01j"]

/-- Modelled from the spec: structural pattern "entry of the temporal
cycle". -/
def PATTERN_TEMPORA : Pattern := fun o => strStartsWith o.id "tempora:"

/-- Modelled from the spec: structural pattern "Sunday of the temporal
cycle" (temporal ids ending in `-0`). -/
def PATTERN_TEMPORA_SUNDAY : Pattern := fun o =>
  strStartsWith o.id "tempora:" && strEndsWith o.id "-0"

/-- Modelled from the spec: 2nd-class temporal Sunday. -/
def PATTERN_TEMPORA_SUNDAY_CLASS_2 : Pattern := fun o =>
  PATTERN_TEMPORA_SUNDAY o && o.rank == 2

/-- Modelled from the spec: any rank-1 candidate. -/
def PATTERN_CLASS_1 : Pattern := fun o => o.rank == 1

/-- Modelled from the spec: 1st or 2nd class sanctoral feast. -/
def PATTERN_SANCTI_CLASS_1_OR_2 : Pattern := fun o =>
  o.flexibility == "sancti" && (o.rank == 1 || o.rank == 2)

/-- Modelled from the spec: 2nd class sanctoral feast. -/
def PATTERN_SANCTI_CLASS_2 : Pattern := fun o =>
  o.flexibility == "sancti" && o.rank == 2

/-- Modelled from the spec: entry of the Advent season. -/
def PATTERN_ADVENT : Pattern := fun o => strStartsWith o.id "tempora:Adv"

/-- Modelled from the spec: entry of the Easter season. -/
def PATTERN_EASTER : Pattern := fun o => strStartsWith o.id "tempora:Pasc"

/-- Modelled from the spec: Advent feria between Dec 17 and Dec 23. -/
def PATTERN_ADVENT_FERIA_BETWEEN_17_AND_23 : Pattern := fun o =>
  strStartsWith o.id "tempora:Adv" && !strEndsWith o.id "-0"
    && 17 ≤ o.date.day && o.date.day ≤ 23

/-- Modelled from the spec: constructing a synthesized `Observance`
from an id, date and language (the `Observance` constructor lives in
`kalendar.models`, outside the provided sources).  Only the id, date
and language matter to the verified claims; the synthesized Marian
office is a 4th-class sanctoral-side entry. -/
def mkObservance (pid : String) (d : Date) (lang : String) : Observance :=
  ⟨pid, 4, 1200, "sancti", d, lang⟩

/-- A resolution outcome: the tuple of three lists each rule returns.
Inline `match(...)` results appear in Python lists as possibly-`None`
elements, hence the `Option` element type; a shift's target date is
itself the possibly-`None` result of a search. -/
structure Outcome where
  celebration : List (Option Observance)
  commemoration : List (Option Observance)
  shifts : List (Option Date × List (Option Observance))
deriving DecidableEq, Repr

/-- The common signature of every rule in the chain. -/
abbrev RuleFn :=
  Calendar → Date → List Observance → List Observance → String → Option Outcome

/-- `rule_nativity_has_multiple_masses`: if the first Christmas mass is
present, the celebration is the list of all `sancti:12-25m*` masses. -/
def rule_nativity_has_multiple_masses : RuleFn :=
  fun _ _ _ observances _ =>
    if (matchFirst observances (byId SANCTI_12_25_1)).isSome then
      some ⟨(observances.filter (fun ld => strStartsWith ld.id "sancti:12-25m")).map some,
            [], []⟩
    else none

/-- `rule_all_souls`: All Souls' three masses; on a Sunday the Sunday's
temporal entry wins and the masses are shifted to Nov 3. -/
def rule_all_souls : RuleFn :=
  fun _ date_ _ observances _ =>
    if (matchFirst observances (byId SANCTI_11_02_1)).isSome then
      let all_souls := observances.filter (fun ld => strStartsWith ld.id "sancti:11-02m")
      if date_.weekday == 6 then
        some ⟨[matchFirst observances PATTERN_TEMPORA_SUNDAY], [],
              [(some ⟨date_.year, 11, 3⟩, all_souls.map some)]⟩
      else some ⟨all_souls.map some, [], []⟩
    else none

/-- `rule_nativity` (defined in the source but absent from the chain). -/
def rule_nativity : RuleFn :=
  fun _ _ _ observances _ =>
    if (matchFirst observances (byId SANCTI_12_25_1)).isSome then
      some ⟨(observances.filter (fun ld => strStartsWith ld.id "sancti:12-25m")).map some,
            [], []⟩
    else none

/-- `rule_nativity_vigil`: Dec 24 vigil on a Sunday is the sole
celebration. -/
def rule_nativity_vigil : RuleFn :=
  fun _ date_ _ observances _ =>
    if (matchFirst observances (byId SANCTI_12_24)).isSome && date_.weekday == 6 then
      some ⟨[matchFirst observances (byId SANCTI_12_24)], [], []⟩
    else none

/-- `rule_immaculate_coneption`: Dec 8 on a Sunday is the sole
celebration. -/
def rule_immaculate_coneption : RuleFn :=
  fun _ date_ _ observances _ =>
    if (matchFirst observances (byId SANCTI_12_08)).isSome && date_.weekday == 6 then
      some ⟨[matchFirst observances (byId SANCTI_12_08)], [], []⟩
    else none

/-- `rule_st_matthias`: in a leap year, evaluated on a 24th with the
Feb 24 feast present, the temporal entry wins and the feast is shifted
to Feb 25. -/
def rule_st_matthias : RuleFn :=
  fun _ date_ _ observances _ =>
    if (matchFirst observances (byId SANCTI_02_24)).isSome
        && isleap date_.year && date_.day == 24 then
      some ⟨[matchFirst observances PATTERN_TEMPORA], [],
            [(some ⟨date_.year, 2, 25⟩, [matchFirst observances (byId SANCTI_02_24)])]⟩
    else none

/-- `rule_feb27`: in a leap year, evaluated on a 27th with the Feb 27
feast present, the temporal entry wins and the feast is shifted to
Feb 28. -/
def rule_feb27 : RuleFn :=
  fun _ date_ _ observances _ =>
    if (matchFirst observances (byId SANCTI_02_27)).isSome
        && isleap date_.year && date_.day == 27 then
      some ⟨[matchFirst observances PATTERN_TEMPORA], [],
            [(some ⟨date_.year, 2, 28⟩, [matchFirst observances (byId SANCTI_02_27)])]⟩
    else none

/-- The period-dependent proper of the Marian Saturday office
(`_calc_proper_for_given_period` inside `rule_bmv_office_on_saturday`). -/
def calcProperForGivenPeriod
    (calendar : Calendar) (date_ : Date) (tempora : List Observance) : String :=
  if (matchFirst tempora PATTERN_ADVENT).isSome then C_10A
  else if Date.le ⟨date_.year, 12, 25⟩ date_ || Date.lt date_ ⟨date_.year, 2, 2⟩ then C_10B
  else
    let wednesday_in_holy_week := (calendar.find_day TEMPORA_QUAD6_3).1
    if Date.le ⟨date_.year, 2, 2⟩ date_ && Date.lt date_ wednesday_in_holy_week then C_10C
    else if (matchFirst tempora PATTERN_EASTER).isSome then C_10PASC
    else C_10T

/-- `rule_bmv_office_on_saturday`: on a Saturday whose candidates are
absent or all 4th class, synthesize the period's Marian office and
commemorate at most the first sanctoral candidate. -/
def rule_bmv_office_on_saturday : RuleFn :=
  fun calendar date_ tempora observances lang =>
    if date_.weekday == 5 then
      let ranks := (observances.map (fun i => i.rank)).dedup
      if ranks.isEmpty || ranks == [4] then
        let bmv_office :=
          mkObservance (calcProperForGivenPeriod calendar date_ tempora) date_ lang
        some ⟨[some bmv_office],
              ((observances.filter (fun i => i.flexibility == "sancti")).take 1).map some,
              []⟩
      else none
    else none

/-- A day's raw pool is "busy" when it holds a 1st or 2nd class entry
(the `{1, 2}.intersection(all_ranks)` test of `_calc_target_date`). -/
def hasRank12 (l : List Observance) : Bool :=
  l.any (fun ld => ld.rank == 1 || ld.rank == 2)

/-- The `key=lambda ld: ld.priority` sort order.  Python's `sorted` is
a stable sort; `List.insertionSort` is stable, hence produces the same
list. -/
def prioLe (a b : Observance) : Prop := a.priority ≤ b.priority

instance : DecidableRel prioLe := fun a b => Nat.decLe a.priority b.priority

/-- One-step-per-iteration loop of `_calc_target_date`: while the
current date is still in `year`, advance a day and stop at the first
day free of 1st/2nd class entries; falling out of the year returns
`none` (Python's implicit `return None`).  `fuel` only bounds the
recursion; `calcTargetDate` supplies more than a year's worth. -/
def calcTargetAux (calendar : Calendar) (year : Nat) : Date → Nat → Option Date
  | _, 0 => none
  | t, fuel + 1 =>
    if t.year == year then
      if !hasRank12 (calendar.get_day t.nextDay).all then some t.nextDay
      else calcTargetAux calendar year t.nextDay fuel
    else none

/-- `_calc_target_date` of `rule_shift_conflicting_1st_class_feasts`. -/
def calcTargetDate (calendar : Calendar) (date_ : Date) : Option Date :=
  calcTargetAux calendar date_.year date_ 400

/-- `rule_shift_conflicting_1st_class_feasts`: with more than one
rank-1 candidate, the lowest-priority one is celebrated and the second
is shifted to the first free day found by the forward search. -/
def rule_shift_conflicting_1st_class_feasts : RuleFn :=
  fun calendar date_ _ observances _ =>
    let first_class_feasts := observances.filter (fun ld => ld.rank == 1)
    if first_class_feasts.length > 1 then
      match List.insertionSort prioLe first_class_feasts with
      | celebration :: shift_day :: _ =>
        some ⟨[some celebration], [],
              [(calcTargetDate calendar date_, [some shift_day])]⟩
      | _ => none
    else none

/-- `rule_lord_feast1`: with both the Jan 13 feast and the 1st Sunday
after Epiphany present, the matched `TEMPORA_EPI1_0` entry is the sole
celebration. -/
def rule_lord_feast1 : RuleFn :=
  fun _ _ _ observances _ =>
    if (matchFirst observances (byId SANCTI_01_13)).isSome
        && (matchFirst observances (byId TEMPORA_EPI1_0)).isSome then
      some ⟨[matchFirst observances (byId TEMPORA_EPI1_0)], [], []⟩
    else none

/-- `rule_lord_feast2`: a designated feast of the Lord over a 2nd-class
temporal Sunday. -/
def rule_lord_feast2 : RuleFn :=
  fun _ _ _ observances _ =>
    if (matchFirst observances (byIds FEASTS_OF_JESUS_CLASS_1_AND_2)).isSome
        && (matchFirst observances PATTERN_TEMPORA_SUNDAY_CLASS_2).isSome then
      some ⟨[matchFirst observances PATTERN_SANCTI_CLASS_1_OR_2], [], []⟩
    else none

/-- `first_class_feast_no_commemoration`: any rank-1 candidate wins
(lowest priority first) with no commemoration. -/
def first_class_feast_no_commemoration : RuleFn :=
  fun _ _ _ observances _ =>
    if (matchFirst observances PATTERN_CLASS_1).isSome then
      some ⟨[matchFirst (List.insertionSort prioLe observances) PATTERN_CLASS_1],
            [], []⟩
    else none

/-- `rule_2nd_class_sunday`: a 2nd-class Sunday beats a 2nd-class
sanctoral feast, which is commemorated. -/
def rule_2nd_class_sunday : RuleFn :=
  fun _ _ _ observances _ =>
    if (matchFirst observances PATTERN_TEMPORA_SUNDAY_CLASS_2).isSome
        && (matchFirst observances PATTERN_SANCTI_CLASS_2).isSome then
      some ⟨[matchFirst observances PATTERN_TEMPORA_SUNDAY_CLASS_2],
            [matchFirst observances PATTERN_SANCTI_CLASS_2], []⟩
    else none

/-- `rule_1st_class_feria`: Ash Wednesday, Holy Week and Low Sunday
always win. -/
def rule_1st_class_feria : RuleFn :=
  fun _ _ _ observances _ =>
    if (matchFirst observances (byIds
          [TEMPORA_QUAD6_1, TEMPORA_QUAD6_2, TEMPORA_QUAD6_3, TEMPORA_QUAD6_4,
           TEMPORA_QUAD6_5, TEMPORA_QUAD6_6, TEMPORA_PASC0_0, TEMPORA_QUADP3_3])).isSome then
      some ⟨[matchFirst observances PATTERN_TEMPORA], [], []⟩
    else none

/-- The combined Ember-day / late-Advent-feria pattern of
`rule_2nd_class_feast_takes_over_advent_feria_and_ember_days`. -/
def lookForEmberOrAdventFeria : Pattern := fun o =>
  byIds EMBER_DAYS o || PATTERN_ADVENT_FERIA_BETWEEN_17_AND_23 o

/-- `rule_2nd_class_feast_takes_over_advent_feria_and_ember_days`. -/
def rule_2nd_class_feast_takes_over_advent_feria_and_ember_days : RuleFn :=
  fun _ _ _ observances _ =>
    if (matchFirst observances lookForEmberOrAdventFeria).isSome
        && (matchFirst observances PATTERN_SANCTI_CLASS_2).isSome then
      some ⟨[matchFirst observances PATTERN_SANCTI_CLASS_2],
            [matchFirst observances lookForEmberOrAdventFeria], []⟩
    else none

/-- The default sort key of `rule_precedence`: Python's tuple
`(x.priority, x.rank, x.flexibility)` compared lexicographically. -/
def precKey (o : Observance) : Nat × Nat × String :=
  (o.priority, o.rank, o.flexibility)

/-- Lexicographic `≤` on the `(priority, rank, flexibility)` sort keys,
as Python compares the key tuples.  Python's `sorted` is stable;
`List.insertionSort` is stable, hence produces the same list. -/
def keyLe (a b : Observance) : Prop :=
  a.priority < b.priority ∨ (a.priority = b.priority ∧
    (a.rank < b.rank ∨ (a.rank = b.rank ∧ a.flexibility ≤ b.flexibility)))

instance : DecidableRel keyLe := fun a b => by unfold keyLe; infer_instance

/-- `rule_precedence`: the always-matching default rule. -/
def rule_precedence : RuleFn :=
  fun _ _ tempora observances _ =>
    match observances with
    | [] => some ⟨[], [], []⟩
    | [o] => some ⟨[some o], [], []⟩
    | _ :: _ :: _ =>
      match List.insertionSort keyLe observances with
      | first :: second :: _ =>
        if (matchFirst [first] PATTERN_TEMPORA_SUNDAY).isSome
            || (match tempora with
                | t0 :: _ => second.id == t0.id
                | [] => false) then
          some ⟨[some first], [], []⟩
        else some ⟨[some first], [some second], []⟩
      | _ => none

/-- The ordered chain, exactly the `rules` tuple of the source. -/
def rules : List RuleFn :=
  [rule_nativity_has_multiple_masses,
   rule_all_souls,
   rule_nativity_vigil,
   rule_immaculate_coneption,
   rule_st_matthias,
   rule_feb27,
   rule_shift_conflicting_1st_class_feasts,
   rule_lord_feast1,
   rule_lord_feast2,
   first_class_feast_no_commemoration,
   rule_2nd_class_sunday,
   rule_1st_class_feria,
   rule_2nd_class_feast_takes_over_advent_feria_and_ember_days,
   rule_bmv_office_on_saturday,
   rule_precedence]

/-- First-match evaluation of a list of rules: the first non-`None`
result is kept. -/
def applyRules (rs : List RuleFn) (calendar : Calendar) (date_ : Date)
    (tempora observances : List Observance) (lang : String) : Option Outcome :=
  match rs with
  | [] => none
  | r :: rest =>
    match r calendar date_ tempora observances lang with
    | some out => some out
    | none => applyRules rest calendar date_ tempora observances lang

/-- Resolution of one date: run the chain in order, keep the first
non-`None` outcome. -/
def resolve (calendar : Calendar) (date_ : Date)
    (tempora observances : List Observance) (lang : String) : Option Outcome :=
  applyRules rules calendar date_ tempora observances lang

/-- The rules of the chain other than the two multi-mass rules
(`rule_nativity_has_multiple_masses`, `rule_all_souls`). -/
def singleCelebrationRules : List RuleFn :=
  [rule_nativity_vigil,
   rule_immaculate_coneption,
   rule_st_matthias,
   rule_feb27,
   rule_shift_conflicting_1st_class_feasts,
   rule_lord_feast1,
   rule_lord_feast2,
   first_class_feast_no_commemoration,
   rule_2nd_class_sunday,
   rule_1st_class_feria,
   rule_2nd_class_feast_takes_over_advent_feria_and_ember_days,
   rule_bmv_office_on_saturday,
   rule_precedence]

/-- The rules of the chain that never produce a shift. -/
def noShiftRules : List RuleFn :=
  [rule_nativity_has_multiple_masses,
   rule_nativity_vigil,
   rule_immaculate_coneption,
   rule_lord_feast1,
   rule_lord_feast2,
   first_class_feast_no_commemoration,
   rule_2nd_class_sunday,
   rule_1st_class_feria,
   rule_2nd_class_feast_takes_over_advent_feria_and_ember_days,
   rule_bmv_office_on_saturday,
   rule_precedence]

/-- An observance appears somewhere in an outcome (as celebration,
commemoration, or inside a shift). -/
def outcomeMentions (out : Outcome) (o : Observance) : Prop :=
  some o ∈ out.celebration ∨ some o ∈ out.commemoration ∨
    ∃ p ∈ out.shifts, some o ∈ p.2

/-- Strict chronological order on sort keys (Python tuple `<`). -/
def keyLtP (a b : Observance) : Prop :=
  a.priority < b.priority ∨ (a.priority = b.priority ∧
    (a.rank < b.rank ∨ (a.rank = b.rank ∧ a.flexibility < b.flexibility)))

/- Concrete fixtures used by the counterexamples and witnesses. -/

/-- A neutral 4th-class temporal observance. -/
def dummyObservance : Observance :=
  ⟨"tempora:Pent1-1", 4, 2000, "tempora", ⟨2025, 1, 1⟩, "en"⟩

/-- A calendar whose days all have empty candidate pools. -/
def trivialCal : Calendar :=
  ⟨fun dd => ⟨dd, [], []⟩, fun _ => (⟨2025, 4, 1⟩, dummyObservance)⟩

/-- A rank-1 feast placed on every day of `busyCal`. -/
def busyObservance (dd : Date) : Observance :=
  ⟨"sancti:busy", 1, 5, "sancti", dd, "en"⟩

/-- A calendar on which every day holds a 1st-class feast, so the
forward search of rule 6 never finds a free day. -/
def busyCal : Calendar :=
  ⟨fun dd => ⟨dd, [], [busyObservance dd]⟩, fun _ => (⟨2025, 4, 1⟩, dummyObservance)⟩

/-- First Christmas mass. -/
def natMass1 : Observance :=
  ⟨"sancti:12-25m1", 1, 13, "sancti", ⟨2025, 12, 25⟩, "en"⟩

/-- Second Christmas mass. -/
def natMass2 : Observance :=
  ⟨"sancti:12-25m2", 1, 14, "sancti", ⟨2025, 12, 25⟩, "en"⟩

/-- The Jan 13 sanctoral feast of the Lord. -/
def baptismObs : Observance :=
  ⟨"sancti:01-13", 2, 25, "sancti", ⟨2030, 1, 13⟩, "en"⟩

/-- The 1st Sunday after Epiphany temporal entry. -/
def holyFamilyObs : Observance :=
  ⟨"tempora:Epi1-0", 2, 30, "tempora", ⟨2030, 1, 13⟩, "en"⟩

/-- First All Souls mass, here fed to the rule on Nov 30. -/
def allSoulsM1 : Observance :=
  ⟨"sancti:11-02m1", 1, 15, "sancti", ⟨2025, 11, 30⟩, "en"⟩

/-- The 1st Advent Sunday temporal entry (Nov 30, 2025). -/
def advent1Sunday : Observance :=
  ⟨"tempora:Adv1-0", 1, 16, "tempora", ⟨2025, 11, 30⟩, "en"⟩

/-- The Feb 24 fixed feast, here fed to the rule on Apr 24. -/
def matthiasObs : Observance :=
  ⟨"sancti:02-24", 2, 310, "sancti", ⟨2024, 4, 24⟩, "en"⟩

/-- The Feb 27 fixed feast. -/
def feb27Obs : Observance :=
  ⟨"sancti:02-27", 3, 320, "sancti", ⟨2024, 2, 27⟩, "en"⟩

/-- A 1st-class feast with priority 11. -/
def feast1 : Observance := ⟨"sancti:f1", 1, 11, "sancti", ⟨2025, 12, 30⟩, "en"⟩

/-- A 1st-class feast with priority 12. -/
def feast2 : Observance := ⟨"sancti:f2", 1, 12, "sancti", ⟨2025, 12, 30⟩, "en"⟩

/-- A 1st-class feast with priority 13. -/
def feast3 : Observance := ⟨"sancti:f3", 1, 13, "sancti", ⟨2025, 12, 30⟩, "en"⟩

/-- A 4th-class sanctoral candidate on a Saturday (Dec 6, 2025). -/
def sanct1 : Observance := ⟨"sancti:10-05", 4, 800, "sancti", ⟨2025, 12, 6⟩, "en"⟩

/-- Another 4th-class sanctoral candidate on the same Saturday. -/
def sanct2 : Observance := ⟨"sancti:10-06", 4, 801, "sancti", ⟨2025, 12, 6⟩, "en"⟩

/-- A 4th-class Advent feria temporal entry (Dec 6, 2025). -/
def adventFeria : Observance :=
  ⟨"tempora:Adv1-6", 4, 900, "tempora", ⟨2025, 12, 6⟩, "en"⟩


theorem dateLt_iff (a b : Date) :
    Date.lt a b = true ↔
      (a.year < b.year ∨ (a.year = b.year ∧
        (a.month < b.month ∨ (a.month = b.month ∧ a.day < b.day)))) := by
  simp [Date.lt]

theorem dateLt_trans {a b c : Date} (h1 : Date.lt a b = true)
    (h2 : Date.lt b c = true) : Date.lt a c = true := by
  rw [dateLt_iff] at h1 h2 ⊢
  omega

theorem dateLt_nextDay (d : Date) : Date.lt d d.nextDay = true := by
  unfold Date.nextDay
  split
  · simp [dateLt_iff]
  · split <;> simp [dateLt_iff]

theorem calcTargetAux_lt {cal : Calendar} {year : Nat} :
    ∀ (fuel : Nat) (t t' : Date),
      calcTargetAux cal year t fuel = some t' → Date.lt t t' = true := by
  intro fuel
  induction fuel with
  | zero => intro t t' h; simp [calcTargetAux] at h
  | succ n ih =>
    intro t t' h
    unfold calcTargetAux at h
    split at h
    · split at h
      · cases h
        exact dateLt_nextDay t
      · exact dateLt_trans (dateLt_nextDay t) (ih _ _ h)
    · cases h

theorem calcTargetAux_busy {cal : Calendar} {year : Nat} :
    ∀ (fuel : Nat) (t : Date),
      (∀ u : Date, Date.lt t u = true → hasRank12 (cal.get_day u).all = true) →
      calcTargetAux cal year t fuel = none := by
  intro fuel
  induction fuel with
  | zero => intro t _; rfl
  | succ n ih =>
    intro t hbusy
    unfold calcTargetAux
    split
    · rw [hbusy _ (dateLt_nextDay t)]
      simp only [Bool.not_true, Bool.false_eq_true, if_false]
      exact ih t.nextDay (fun u hu => hbusy u (dateLt_trans (dateLt_nextDay t) hu))
    · rfl

theorem calcTargetAux_walk {cal : Calendar} {year : Nat} :
    ∀ (k : Nat) (t : Date) (fuel : Nat), 0 < k → k ≤ fuel →
      (∀ j, j < k → (Date.nextDay^[j] t).year = year) →
      hasRank12 (cal.get_day (Date.nextDay^[k] t)).all = false →
      (∀ j, 0 < j → j < k → hasRank12 (cal.get_day (Date.nextDay^[j] t)).all = true) →
      calcTargetAux cal year t fuel = some (Date.nextDay^[k] t) := by
  intro k
  induction k with
  | zero => intro t fuel h0; omega
  | succ m ih =>
    intro t fuel _ hfuel hyear hfree hbusy
    obtain ⟨f, rfl⟩ : ∃ f, fuel = f + 1 := ⟨fuel - 1, by omega⟩
    unfold calcTargetAux
    have hy0 : t.year = year := by simpa using hyear 0 (Nat.succ_pos m)
    rw [if_pos (by simpa using hy0)]
    rcases Nat.eq_zero_or_pos m with rfl | hm
    · have h1 : hasRank12 (cal.get_day t.nextDay).all = false := by
        simpa [Function.iterate_one] using hfree
      rw [h1]
      simp [Function.iterate_one]
    · have h1 : hasRank12 (cal.get_day t.nextDay).all = true := by
        simpa [Function.iterate_one] using hbusy 1 Nat.one_pos (by omega)
      rw [h1]
      simp only [Bool.not_true, Bool.false_eq_true, if_false]
      have hstep := ih t.nextDay f hm (by omega)
        (fun j hj => by
          have := hyear (j + 1) (by omega)
          rwa [Function.iterate_succ_apply] at this)
        (by
          have := hfree
          rwa [Function.iterate_succ_apply] at this)
        (fun j hj0 hj => by
          have := hbusy (j + 1) (by omega) (by omega)
          rwa [Function.iterate_succ_apply] at this)
      rw [hstep, ← Function.iterate_succ_apply]

theorem insertionSort_length (r : Observance → Observance → Prop) [DecidableRel r]
    (l : List Observance) : (List.insertionSort r l).length = l.length :=
  (List.perm_insertionSort r l).length_eq

theorem rule_precedence_isSome (cal : Calendar) (d : Date)
    (tempora observances : List Observance) (lang : String) :
    (rule_precedence cal d tempora observances lang).isSome = true := by
  match observances with
  | [] => rfl
  | [o] => rfl
  | a :: b :: rest =>
    show (rule_precedence cal d tempora (a :: b :: rest) lang).isSome = true
    unfold rule_precedence
    have hlen : (List.insertionSort keyLe (a :: b :: rest)).length = rest.length + 2 := by
      simpa using insertionSort_length keyLe (a :: b :: rest)
    match hs : List.insertionSort keyLe (a :: b :: rest) with
    | [] => rw [hs] at hlen; simp at hlen
    | [x] => rw [hs] at hlen; simp at hlen
    | x :: y :: s =>
      simp only [hs]
      split <;> rfl

theorem applyRules_isSome_of_mem :
    ∀ (rs : List RuleFn) (r : RuleFn), r ∈ rs →
      ∀ (cal : Calendar) (d : Date) (t obs : List Observance) (lang : String),
        (r cal d t obs lang).isSome = true →
        (applyRules rs cal d t obs lang).isSome = true := by
  intro rs
  induction rs with
  | nil => intro r hr; cases hr
  | cons a rest ih =>
    intro r hr cal d t obs lang hsome
    unfold applyRules
    rcases List.mem_cons.mp hr with rfl | hmem
    · cases h : r cal d t obs lang with
      | none => rw [h] at hsome; cases hsome
      | some out => simp
    · cases h : a cal d t obs lang with
      | none => simpa using ih r hmem cal d t obs lang hsome
      | some out => simp

theorem dedup_cond_iff (l : List Nat) :
    (l.dedup.isEmpty || l.dedup == [4]) = true ↔ ∀ x ∈ l, x = 4 := by
  constructor
  · intro h x hx
    rcases (Bool.or_eq_true _ _).mp h with h1 | h2
    · have : l.dedup = [] := by simpa using h1
      rw [List.dedup_eq_nil] at this
      subst this
      cases hx
    · have h4 : l.dedup = [4] := by simpa using h2
      have : x ∈ l.dedup := List.mem_dedup.mpr hx
      rw [h4] at this
      simpa using this
  · intro h
    rcases l with _ | ⟨a, l'⟩
    · rfl
    · have hmem : ∀ x ∈ (a :: l').dedup, x = 4 := fun x hx =>
        h x (List.mem_dedup.mp hx)
      have hnd := (a :: l').nodup_dedup
      have hne : (a :: l').dedup ≠ [] := by
        rw [Ne, List.dedup_eq_nil]
        simp
      match hd : (a :: l').dedup with
      | [] => exact absurd hd hne
      | [x] =>
        have : x = 4 := hmem x (by rw [hd]; simp)
        subst this
        simp
      | x :: y :: rest =>
        have hx : x = 4 := hmem x (by rw [hd]; simp)
        have hy : y = 4 := hmem y (by rw [hd]; simp)
        rw [hd] at hnd
        rcases List.nodup_cons.mp hnd with ⟨hxn, _⟩
        exact absurd (by rw [hx, hy]; simp : x ∈ y :: rest) hxn

instance : IsTotal Observance prioLe := ⟨fun a b => Nat.le_total a.priority b.priority⟩

instance : IsTrans Observance prioLe := ⟨fun _ _ _ h1 h2 => Nat.le_trans h1 h2⟩

theorem sortedTwoHead {l : List Observance} {c s : Observance} {rest : List Observance}
    (hdist : l.Pairwise (fun a b => a.priority ≠ b.priority))
    (hsort : List.insertionSort prioLe l = c :: s :: rest) :
    c ∈ l ∧ s ∈ l ∧ c ≠ s ∧
      (∀ o ∈ l, o ≠ c → c.priority < o.priority) ∧
      (∀ o ∈ l, o ≠ c → o ≠ s → s.priority < o.priority) := by
  have hperm : List.Perm (List.insertionSort prioLe l) l := List.perm_insertionSort prioLe l
  have hsorted : List.Sorted prioLe (List.insertionSort prioLe l) :=
    List.sorted_insertionSort prioLe l
  have hdist' : (List.insertionSort prioLe l).Pairwise
      (fun a b => a.priority ≠ b.priority) :=
    hdist.perm hperm.symm (by intro x y h; exact h.symm)
  rw [hsort] at hperm hsorted hdist'
  rcases List.pairwise_cons.mp hsorted with ⟨hc_le, hsorted'⟩
  rcases List.pairwise_cons.mp hsorted' with ⟨hs_le, _⟩
  rcases List.pairwise_cons.mp hdist' with ⟨hc_ne, hdist''⟩
  rcases List.pairwise_cons.mp hdist'' with ⟨hs_ne, _⟩
  have hmem : ∀ o ∈ l, o ∈ c :: s :: rest := fun o ho => hperm.symm.subset ho
  refine ⟨hperm.subset (by simp), hperm.subset (by simp), ?_, ?_, ?_⟩
  · intro hcs
    exact hc_ne s (by simp) (by rw [hcs])
  · intro o ho hoc
    rcases List.mem_cons.mp (hmem o ho) with h | h
    · exact absurd h hoc
    · exact Nat.lt_of_le_of_ne (hc_le o h) (hc_ne o h)
  · intro o ho hoc hos
    rcases List.mem_cons.mp (hmem o ho) with h | h
    · exact absurd h hoc
    · rcases List.mem_cons.mp h with h2 | h2
      · exact absurd h2 hos
      · exact Nat.lt_of_le_of_ne (hs_le o h2) (hs_ne o h2)

instance : IsTotal Observance keyLe := by
  constructor
  intro a b
  rcases Nat.lt_trichotomy a.priority b.priority with h | h | h
  · exact Or.inl (Or.inl h)
  · rcases Nat.lt_trichotomy a.rank b.rank with h2 | h2 | h2
    · exact Or.inl (Or.inr ⟨h, Or.inl h2⟩)
    · rcases le_total a.flexibility b.flexibility with h3 | h3
      · exact Or.inl (Or.inr ⟨h, Or.inr ⟨h2, h3⟩⟩)
      · exact Or.inr (Or.inr ⟨h.symm, Or.inr ⟨h2.symm, h3⟩⟩)
    · exact Or.inr (Or.inr ⟨h.symm, Or.inl h2⟩)
  · exact Or.inr (Or.inl h)

instance : IsTrans Observance keyLe := by
  constructor
  intro a b c h1 h2
  rcases h1 with h1 | ⟨e1, h1⟩
  · rcases h2 with h2 | ⟨e2, h2⟩
    · exact Or.inl (Nat.lt_trans h1 h2)
    · exact Or.inl (e2 ▸ h1)
  · rcases h2 with h2 | ⟨e2, h2⟩
    · exact Or.inl (e1 ▸ h2)
    · refine Or.inr ⟨e1.trans e2, ?_⟩
      rcases h1 with h1 | ⟨f1, h1⟩
      · rcases h2 with h2 | ⟨f2, h2⟩
        · exact Or.inl (Nat.lt_trans h1 h2)
        · exact Or.inl (f2 ▸ h1)
      · rcases h2 with h2 | ⟨f2, h2⟩
        · exact Or.inl (f1 ▸ h2)
        · exact Or.inr ⟨f1.trans f2, le_trans h1 h2⟩

theorem keyLe_ne_lt {a b : Observance} (h : keyLe a b) (hne : precKey a ≠ precKey b) :
    keyLtP a b := by
  rcases h with h | ⟨e1, h | ⟨e2, h3⟩⟩
  · exact Or.inl h
  · exact Or.inr ⟨e1, Or.inl h⟩
  · refine Or.inr ⟨e1, Or.inr ⟨e2, lt_of_le_of_ne h3 ?_⟩⟩
    intro hf
    exact hne (by simp [precKey, e1, e2, hf])

theorem keyLtP_asymm {a b : Observance} (h1 : keyLtP a b) (h2 : keyLtP b a) : False := by
  rcases h1 with h1 | ⟨e1, h1 | ⟨f1, g1⟩⟩ <;>
    rcases h2 with h2 | ⟨e2, h2 | ⟨f2, g2⟩⟩ <;>
      first
        | omega
        | exact absurd (g1.trans g2) (lt_irrefl _)

instance : IsAntisymm Observance keyLtP :=
  ⟨fun _ _ h1 h2 => (keyLtP_asymm h1 h2).elim⟩

theorem insertionSort_eq_of_perm {l1 l2 : List Observance}
    (hp : List.Perm l1 l2)
    (hdist : l1.Pairwise (fun a b => precKey a ≠ precKey b)) :
    List.insertionSort keyLe l1 = List.insertionSort keyLe l2 := by
  have hperm : List.Perm (List.insertionSort keyLe l1) (List.insertionSort keyLe l2) :=
    ((List.perm_insertionSort keyLe l1).trans hp).trans
      (List.perm_insertionSort keyLe l2).symm
  have hd1 : (List.insertionSort keyLe l1).Pairwise (fun a b => precKey a ≠ precKey b) :=
    hdist.perm (List.perm_insertionSort keyLe l1).symm (fun h => Ne.symm h)
  have hd2 : (List.insertionSort keyLe l2).Pairwise (fun a b => precKey a ≠ precKey b) :=
    (hdist.perm hp (fun h => Ne.symm h)).perm (List.perm_insertionSort keyLe l2).symm (fun h => Ne.symm h)
  have hp1 : (List.insertionSort keyLe l1).Pairwise keyLtP :=
    ((List.sorted_insertionSort keyLe l1).and hd1).imp
      (fun h => keyLe_ne_lt h.1 h.2)
  have hp2 : (List.insertionSort keyLe l2).Pairwise keyLtP :=
    ((List.sorted_insertionSort keyLe l2).and hd2).imp
      (fun h => keyLe_ne_lt h.1 h.2)
  exact List.eq_of_perm_of_sorted hperm hp1 hp2


/-- Claim C5: the rule chain is total — for every (calendar, date,
tempora, observances, language) input, evaluating the rules in order
and keeping the first non-`None` result yields an outcome, because the
final default rule returns a result on every input. -/
theorem C5_chain_total (cal : Calendar) (d : Date)
    (tempora observances : List Observance) (lang : String) :
    (resolve cal d tempora observances lang).isSome = true :=
  applyRules_isSome_of_mem rules rule_precedence (by simp [rules])
    cal d tempora observances lang
    (rule_precedence_isSome cal d tempora observances lang)

/-- Claim C1 (counterexample): on Christmas with two mass candidates the
chain's kept outcome (first rule) has a two-element celebration list,
refuting "celebration contains zero or one Observance". -/
theorem C1_counterexample :
    resolve trivialCal ⟨2025, 12, 25⟩ [] [natMass1, natMass2] "en" =
      some ⟨[some natMass1, some natMass2], [], []⟩ ∧
    ¬ (([some natMass1, some natMass2] : List (Option Observance)).length ≤ 1) := by
  exact ⟨by decide, by decide⟩

/-- Claim C1 (amended): every rule of the chain other than the two
multi-mass rules (Nativity, All Souls) returns a celebration list with
at most one element. -/
theorem C1_amended : ∀ r ∈ singleCelebrationRules,
    ∀ (cal : Calendar) (d : Date) (t obs : List Observance) (lang : String)
      (out : Outcome), r cal d t obs lang = some out →
      out.celebration.length ≤ 1 := by
  intro r hr
  fin_cases hr <;>
    · intro cal d t obs lang out h
      first
        | (simp only [rule_nativity_vigil, rule_immaculate_coneption, rule_st_matthias,
              rule_feb27, rule_shift_conflicting_1st_class_feasts, rule_lord_feast1,
              rule_lord_feast2, first_class_feast_no_commemoration, rule_2nd_class_sunday,
              rule_1st_class_feria,
              rule_2nd_class_feast_takes_over_advent_feria_and_ember_days,
              rule_bmv_office_on_saturday, rule_precedence] at h
           repeat' split at h
           all_goals cases h
           all_goals simp)

/-- Claim C1 (witness): the amended theorem applied to a concrete
firing of `rule_lord_feast1`. -/
theorem C1_witness :
    (⟨[some holyFamilyObs], [], []⟩ : Outcome).celebration.length ≤ 1 :=
  C1_amended rule_lord_feast1 (by simp [singleCelebrationRules])
    trivialCal ⟨2030, 1, 13⟩ [] [baptismObs, holyFamilyObs] "en"
    ⟨[some holyFamilyObs], [], []⟩ (by decide)

/-- Claim C2 (counterexample): with both the Jan 13 Lord feast and the
named temporal Sunday present, `rule_lord_feast1` returns the temporal
Sunday — not the sanctoral Lord feast — as celebration. -/
theorem C2_counterexample :
    rule_lord_feast1 trivialCal ⟨2030, 1, 13⟩ [] [baptismObs, holyFamilyObs] "en" =
      some ⟨[some holyFamilyObs], [], []⟩ ∧
    holyFamilyObs.id ≠ SANCTI_01_13 ∧ baptismObs.id = SANCTI_01_13 ∧
    holyFamilyObs ≠ baptismObs := by
  exact ⟨by decide, by decide, by decide, by decide⟩

/-- Claim C2 (amended): the rule fires exactly when both the designated
Lord feast and the named temporal Sunday are present; when it fires the
celebration is the first candidate matching the named temporal Sunday
`TEMPORA_EPI1_0` (the Sunday displaces the Lord feast), the
commemorations are empty and there are no shifts. -/
theorem C2_amended (cal : Calendar) (d : Date) (t obs : List Observance) (lang : String) :
    ((rule_lord_feast1 cal d t obs lang).isSome ↔
      ((matchFirst obs (byId SANCTI_01_13)).isSome ∧
        (matchFirst obs (byId TEMPORA_EPI1_0)).isSome)) ∧
    (∀ out, rule_lord_feast1 cal d t obs lang = some out →
      out = ⟨[matchFirst obs (byId TEMPORA_EPI1_0)], [], []⟩ ∧
      ∀ o, matchFirst obs (byId TEMPORA_EPI1_0) = some o → o.id = TEMPORA_EPI1_0) := by
  constructor
  · unfold rule_lord_feast1
    split
    · rename_i hcond
      simp only [Option.isSome_some, true_iff]
      exact ⟨(Bool.and_eq_true _ _ |>.mp hcond).1, (Bool.and_eq_true _ _ |>.mp hcond).2⟩
    · rename_i hcond
      simp only [Option.isSome_none, Bool.false_eq_true, false_iff]
      intro ⟨h1, h2⟩
      exact hcond (by rw [h1, h2]; rfl)
  · intro out h
    unfold rule_lord_feast1 at h
    split at h
    · cases h
      refine ⟨rfl, ?_⟩
      intro o ho
      have := List.find?_some ho
      simpa [byId] using this
    · cases h

/-- Claim C2 (witness): the amended theorem applied to a concrete
firing. -/
theorem C2_witness :
    (⟨[some holyFamilyObs], [], []⟩ : Outcome) =
      ⟨[matchFirst [baptismObs, holyFamilyObs] (byId TEMPORA_EPI1_0)], [], []⟩ ∧
    holyFamilyObs.id = TEMPORA_EPI1_0 := by
  have h := (C2_amended trivialCal ⟨2030, 1, 13⟩ [] [baptismObs, holyFamilyObs] "en").2
    ⟨[some holyFamilyObs], [], []⟩ (by decide)
  exact ⟨h.1, h.2 holyFamilyObs (by decide)⟩

/-- Claim C3 (counterexample): firing the 1st-class collision rule near
year end on a calendar whose remaining days all hold rank-1 entries, the
search exhausts the year and the shift target is `None` — not the last
day examined (Dec 31, 2025 or Jan 1, 2026). -/
theorem C3_counterexample :
    rule_shift_conflicting_1st_class_feasts busyCal ⟨2025, 12, 30⟩ []
        [feast1, feast2] "en" =
      some ⟨[some feast1], [], [(none, [some feast2])]⟩ ∧
    (none : Option Date) ≠ some ⟨2025, 12, 31⟩ ∧
    (none : Option Date) ≠ some ⟨2026, 1, 1⟩ := by
  exact ⟨by decide, by decide, by decide⟩

/-- Claim C3 (amended): when every later day holds a 1st/2nd-class
entry — so the forward search exhausts the year — the outcome the rule
returns carries a null (`None`) shift target. -/
theorem C3_amended (cal : Calendar) (d : Date) (t obs : List Observance)
    (lang : String) (out : Outcome)
    (hbusy : ∀ u : Date, Date.lt d u = true → hasRank12 (cal.get_day u).all = true)
    (h : rule_shift_conflicting_1st_class_feasts cal d t obs lang = some out) :
    out.shifts.map Prod.fst = [none] := by
  simp only [rule_shift_conflicting_1st_class_feasts] at h
  split at h
  · split at h
    · cases h
      simp [calcTargetDate, calcTargetAux_busy 400 d hbusy]
    · cases h
  · cases h

/-- Claim C3 (witness): the amended theorem applied to the concrete
exhausting calendar. -/
theorem C3_witness :
    (⟨[some feast1], [], [(none, [some feast2])]⟩ : Outcome).shifts.map Prod.fst =
      [none] :=
  C3_amended busyCal ⟨2025, 12, 30⟩ [] [feast1, feast2] "en"
    ⟨[some feast1], [], [(none, [some feast2])]⟩ (fun u _ => rfl) (by decide)

/-- Claim C4: with more than one rank-1 candidate (of pairwise distinct
priorities) on the date, and the k-th following day the nearest later
day whose candidate pool has no rank-1 or rank-2 entry (all days
between are occupied, the walk stays within the year), the rule
celebrates the rank-1 candidate with the lowest priority and shifts the
second-lowest to exactly that nearest free day. -/
theorem C4_first_class_collision (cal : Calendar) (d : Date)
    (t obs : List Observance) (lang : String) (k : Nat)
    (hk0 : 0 < k) (hk : k ≤ 400)
    (hyear : ∀ j, j < k → (Date.nextDay^[j] d).year = d.year)
    (hfree : hasRank12 (cal.get_day (Date.nextDay^[k] d)).all = false)
    (hbusy : ∀ j, 0 < j → j < k →
      hasRank12 (cal.get_day (Date.nextDay^[j] d)).all = true)
    (hmany : 1 < (obs.filter (fun ld => ld.rank == 1)).length)
    (hdist : (obs.filter (fun ld => ld.rank == 1)).Pairwise
      (fun a b => a.priority ≠ b.priority)) :
    ∃ c s, c ∈ obs.filter (fun ld => ld.rank == 1) ∧
      s ∈ obs.filter (fun ld => ld.rank == 1) ∧
      (∀ o ∈ obs.filter (fun ld => ld.rank == 1), o ≠ c → c.priority < o.priority) ∧
      (∀ o ∈ obs.filter (fun ld => ld.rank == 1), o ≠ c → o ≠ s →
        s.priority < o.priority) ∧
      rule_shift_conflicting_1st_class_feasts cal d t obs lang =
        some ⟨[some c], [], [(some (Date.nextDay^[k] d), [some s])]⟩ := by
  have hlen : (List.insertionSort prioLe (obs.filter (fun ld => ld.rank == 1))).length =
      (obs.filter (fun ld => ld.rank == 1)).length :=
    insertionSort_length prioLe _
  match hs : List.insertionSort prioLe (obs.filter (fun ld => ld.rank == 1)) with
  | [] => rw [hs] at hlen; simp at hlen; omega
  | [x] => rw [hs] at hlen; simp at hlen; omega
  | c :: s :: rest =>
    obtain ⟨hc, hsmem, hcs, hcmin, hsmin⟩ := sortedTwoHead hdist hs
    refine ⟨c, s, hc, hsmem, hcmin, hsmin, ?_⟩
    simp only [rule_shift_conflicting_1st_class_feasts]
    rw [if_pos hmany, hs]
    have htgt : calcTargetDate cal d = some (Date.nextDay^[k] d) :=
      calcTargetAux_walk k d 400 hk0 hk hyear hfree hbusy
    rw [htgt]

/-- Claim C4 (witness): the theorem applied to two conflicting
1st-class feasts on Dec 30, 2025 over an otherwise free calendar, where
the very next day is free. -/
theorem C4_witness :
    ∃ c s, c ∈ ([feast2, feast1].filter (fun ld => ld.rank == 1)) ∧
      s ∈ ([feast2, feast1].filter (fun ld => ld.rank == 1)) ∧
      (∀ o ∈ ([feast2, feast1].filter (fun ld => ld.rank == 1)), o ≠ c →
        c.priority < o.priority) ∧
      (∀ o ∈ ([feast2, feast1].filter (fun ld => ld.rank == 1)), o ≠ c → o ≠ s →
        s.priority < o.priority) ∧
      rule_shift_conflicting_1st_class_feasts trivialCal ⟨2025, 12, 30⟩ []
          [feast2, feast1] "en" =
        some ⟨[some c], [], [(some (Date.nextDay^[1] ⟨2025, 12, 30⟩), [some s])]⟩ :=
  C4_first_class_collision trivialCal ⟨2025, 12, 30⟩ [] [feast2, feast1] "en" 1
    Nat.one_pos (by omega) (fun j hj => by interval_cases j; rfl)
    rfl (fun j hj0 hj => by omega) (by decide) (by decide)

/-- Claim C6 (counterexample): `rule_all_souls` fired on Sunday Nov 30,
2025 (with the All Souls candidate in the pool) shifts the masses to
Nov 3, 2025 — a date strictly earlier than the origin. -/
theorem C6_counterexample :
    rule_all_souls trivialCal ⟨2025, 11, 30⟩ [] [allSoulsM1, advent1Sunday] "en" =
      some ⟨[some advent1Sunday], [], [(some ⟨2025, 11, 3⟩, [some allSoulsM1])]⟩ ∧
    Date.lt ⟨2025, 11, 3⟩ ⟨2025, 11, 30⟩ = true := by
  exact ⟨by decide, by decide⟩

/-- Claim C6 (amended): shifts target strictly later dates whenever the
shifting rules fire on the nominal date of the feast concerned
(Nov 2 for All Souls; for the leap-year rules, a February date) and,
for the 1st-class collision rule, whenever its search returns a
non-null target; every other rule of the chain produces no shift at
all. -/
theorem C6_amended :
    (∀ (cal : Calendar) (y : Nat) (t obs : List Observance) (lang : String)
        (out : Outcome),
      rule_all_souls cal ⟨y, 11, 2⟩ t obs lang = some out →
      ∀ p ∈ out.shifts, ∀ tgt, p.1 = some tgt → Date.lt ⟨y, 11, 2⟩ tgt = true) ∧
    (∀ (cal : Calendar) (d : Date) (t obs : List Observance) (lang : String)
        (out : Outcome),
      d.month = 2 → rule_st_matthias cal d t obs lang = some out →
      ∀ p ∈ out.shifts, ∀ tgt, p.1 = some tgt → Date.lt d tgt = true) ∧
    (∀ (cal : Calendar) (d : Date) (t obs : List Observance) (lang : String)
        (out : Outcome),
      d.month = 2 → rule_feb27 cal d t obs lang = some out →
      ∀ p ∈ out.shifts, ∀ tgt, p.1 = some tgt → Date.lt d tgt = true) ∧
    (∀ (cal : Calendar) (d : Date) (t obs : List Observance) (lang : String)
        (out : Outcome),
      rule_shift_conflicting_1st_class_feasts cal d t obs lang = some out →
      ∀ p ∈ out.shifts, ∀ tgt, p.1 = some tgt → Date.lt d tgt = true) ∧
    (∀ r ∈ noShiftRules,
      ∀ (cal : Calendar) (d : Date) (t obs : List Observance) (lang : String)
        (out : Outcome),
      r cal d t obs lang = some out → out.shifts = []) := by
  refine ⟨?_, ?_, ?_, ?_, ?_⟩
  · intro cal y t obs lang out h p hp tgt htgt
    simp only [rule_all_souls] at h
    split at h
    · split at h
      · cases h
        simp only [List.mem_singleton] at hp
        subst hp
        simp only at htgt
        cases htgt
        rw [dateLt_iff]
        simp
      · cases h
        simp at hp
    · cases h
  · intro cal d t obs lang out hm h p hp tgt htgt
    simp only [rule_st_matthias] at h
    split at h
    · rename_i hcond
      have hday : d.day = 24 := by
        have := (Bool.and_eq_true _ _).mp hcond
        simpa using this.2
      cases h
      simp only [List.mem_singleton] at hp
      subst hp
      simp only at htgt
      cases htgt
      rw [dateLt_iff]
      simp [hm, hday]
    · cases h
  · intro cal d t obs lang out hm h p hp tgt htgt
    simp only [rule_feb27] at h
    split at h
    · rename_i hcond
      have hday : d.day = 27 := by
        have := (Bool.and_eq_true _ _).mp hcond
        simpa using this.2
      cases h
      simp only [List.mem_singleton] at hp
      subst hp
      simp only at htgt
      cases htgt
      rw [dateLt_iff]
      simp [hm, hday]
    · cases h
  · intro cal d t obs lang out h p hp tgt htgt
    simp only [rule_shift_conflicting_1st_class_feasts] at h
    split at h
    · split at h
      · cases h
        simp only [List.mem_singleton] at hp
        subst hp
        simp only at htgt
        exact calcTargetAux_lt 400 d tgt htgt
      · cases h
    · cases h
  · intro r hr
    fin_cases hr <;>
      · intro cal d t obs lang out h
        first
          | (simp only [rule_nativity_has_multiple_masses, rule_nativity_vigil,
                rule_immaculate_coneption, rule_lord_feast1, rule_lord_feast2,
                first_class_feast_no_commemoration, rule_2nd_class_sunday,
                rule_1st_class_feria,
                rule_2nd_class_feast_takes_over_advent_feria_and_ember_days,
                rule_bmv_office_on_saturday, rule_precedence] at h
             repeat' split at h
             all_goals cases h
             all_goals simp)

/-- Claim C7 (counterexample): two candidates with distinct
(priority, rank, flexibility) triples on a free Saturday; permuting the
candidate list changes the chain's outcome (the Marian-Saturday rule
commemorates the positionally first sanctoral candidate), refuting
permutation invariance. -/
theorem C7_counterexample :
    precKey sanct1 ≠ precKey sanct2 ∧
    resolve trivialCal ⟨2025, 12, 6⟩ [adventFeria] [sanct1, sanct2] "en" ≠
      resolve trivialCal ⟨2025, 12, 6⟩ [adventFeria] [sanct2, sanct1] "en" := by
  exact ⟨by decide, by decide⟩

/-- Claim C7 (amended): the default precedence rule — whose tie-breaks
go through the (priority, rank, flexibility) sort key — is invariant
under permutation of the candidate list when no two candidates share
all three key fields; rules that pick candidates by list position are
not. -/
theorem C7_amended (cal : Calendar) (d : Date) (temp : List Observance)
    (lang : String) (l1 l2 : List Observance) (hp : List.Perm l1 l2)
    (hdist : l1.Pairwise (fun a b => precKey a ≠ precKey b)) :
    rule_precedence cal d temp l1 lang = rule_precedence cal d temp l2 lang := by
  rcases l1 with _ | ⟨a, _ | ⟨b, r1⟩⟩
  · have h2 : l2 = [] := hp.nil_eq.symm
    subst h2
    rfl
  · have h2 : l2 = [a] := List.perm_singleton.mp hp.symm
    subst h2
    rfl
  · have hlen : l2.length = r1.length + 2 := by simpa using hp.length_eq.symm
    rcases l2 with _ | ⟨a2, _ | ⟨b2, r2⟩⟩
    · simp at hlen
    · simp at hlen
    · have hsort : List.insertionSort keyLe (a :: b :: r1) =
          List.insertionSort keyLe (a2 :: b2 :: r2) :=
        insertionSort_eq_of_perm hp hdist
      simp only [rule_precedence]
      rw [hsort]

/-- Claim C7 (witness): the amended theorem applied to the two
orderings of two key-distinct candidates. -/
theorem C7_witness :
    rule_precedence trivialCal ⟨2025, 12, 30⟩ [] [sanct1, sanct2] "en" =
      rule_precedence trivialCal ⟨2025, 12, 30⟩ [] [sanct2, sanct1] "en" :=
  C7_amended trivialCal ⟨2025, 12, 30⟩ [] "en" [sanct1, sanct2] [sanct2, sanct1]
    (List.Perm.swap sanct2 sanct1 []) (by decide)

/-- Claim C8 (counterexample): in the leap year 2024 the St. Matthias
rule fires on April 24 (any 24th with the feast present), and the
shift target Feb 25 is then not one calendar day later but 59 days
earlier. -/
theorem C8_counterexample :
    rule_st_matthias trivialCal ⟨2024, 4, 24⟩ [] [matthiasObs] "en" =
      some ⟨[none], [], [(some ⟨2024, 2, 25⟩, [some matthiasObs])]⟩ ∧
    (⟨2024, 2, 25⟩ : Date) ≠ Date.nextDay ⟨2024, 4, 24⟩ ∧
    Date.lt ⟨2024, 2, 25⟩ ⟨2024, 4, 24⟩ = true := by
  exact ⟨by decide, by decide, by decide⟩

/-- Claim C8 (amended): each leap-year rule fires iff the year is a
leap year, the day-of-month equals the nominal day (24 resp. 27) and
the fixed feast is among the candidates; when it fires, the celebration
is the first temporal candidate and the feast is shifted to Feb 25
resp. Feb 28 of the same year — which is exactly one calendar day later
when the rule fires on its nominal February date. -/
theorem C8_leap_year_rules (cal : Calendar) (d : Date)
    (t obs : List Observance) (lang : String) :
    ((rule_st_matthias cal d t obs lang).isSome ↔
      ((matchFirst obs (byId SANCTI_02_24)).isSome ∧ isleap d.year = true ∧
        d.day = 24)) ∧
    (∀ out, rule_st_matthias cal d t obs lang = some out →
      out = ⟨[matchFirst obs PATTERN_TEMPORA], [],
            [(some ⟨d.year, 2, 25⟩, [matchFirst obs (byId SANCTI_02_24)])]⟩) ∧
    (d.month = 2 → (rule_st_matthias cal d t obs lang).isSome →
      (⟨d.year, 2, 25⟩ : Date) = d.nextDay) ∧
    ((rule_feb27 cal d t obs lang).isSome ↔
      ((matchFirst obs (byId SANCTI_02_27)).isSome ∧ isleap d.year = true ∧
        d.day = 27)) ∧
    (∀ out, rule_feb27 cal d t obs lang = some out →
      out = ⟨[matchFirst obs PATTERN_TEMPORA], [],
            [(some ⟨d.year, 2, 28⟩, [matchFirst obs (byId SANCTI_02_27)])]⟩) ∧
    (d.month = 2 → (rule_feb27 cal d t obs lang).isSome →
      (⟨d.year, 2, 28⟩ : Date) = d.nextDay) := by
  obtain ⟨y, m, dd⟩ := d
  refine ⟨?_, ?_, ?_, ?_, ?_, ?_⟩
  · simp only [rule_st_matthias]
    split
    · rename_i hcond
      simp only [Bool.and_eq_true, beq_iff_eq] at hcond
      simp only [Option.isSome_some, true_iff]
      exact ⟨hcond.1.1, hcond.1.2, hcond.2⟩
    · rename_i hcond
      simp only [Bool.and_eq_true, beq_iff_eq] at hcond
      simp only [Option.isSome_none, Bool.false_eq_true, false_iff]
      intro ⟨h1, h2, h3⟩
      exact hcond ⟨⟨h1, h2⟩, h3⟩
  · intro out h
    simp only [rule_st_matthias] at h
    split at h
    · cases h; rfl
    · cases h
  · intro hm hs
    simp only [rule_st_matthias] at hs
    split at hs
    · rename_i hcond
      simp only [Bool.and_eq_true, beq_iff_eq] at hcond
      obtain ⟨⟨-, hleap⟩, hday⟩ := hcond
      simp only at hm hday
      subst hm hday
      simp only [Date.nextDay, daysInMonth]
      norm_num
      split <;> norm_num
    · cases hs
  · simp only [rule_feb27]
    split
    · rename_i hcond
      simp only [Bool.and_eq_true, beq_iff_eq] at hcond
      simp only [Option.isSome_some, true_iff]
      exact ⟨hcond.1.1, hcond.1.2, hcond.2⟩
    · rename_i hcond
      simp only [Bool.and_eq_true, beq_iff_eq] at hcond
      simp only [Option.isSome_none, Bool.false_eq_true, false_iff]
      intro ⟨h1, h2, h3⟩
      exact hcond ⟨⟨h1, h2⟩, h3⟩
  · intro out h
    simp only [rule_feb27] at h
    split at h
    · cases h; rfl
    · cases h
  · intro hm hs
    simp only [rule_feb27] at hs
    split at hs
    · rename_i hcond
      simp only [Bool.and_eq_true, beq_iff_eq] at hcond
      obtain ⟨⟨-, hleap⟩, hday⟩ := hcond
      simp only at hm hday
      subst hm hday
      simp only [Date.nextDay, daysInMonth]
      norm_num
      split <;> norm_num
    · cases hs

/-- Claim C8 (witness): the amended theorem at the nominal date
Feb 24 of the leap year 2024: the rule fires and the Feb 25 target is
exactly the next calendar day. -/
theorem C8_witness :
    (rule_st_matthias trivialCal ⟨2024, 2, 24⟩ [] [matthiasObs] "en").isSome = true ∧
    (⟨2024, 2, 25⟩ : Date) = Date.nextDay ⟨2024, 2, 24⟩ := by
  have h := C8_leap_year_rules trivialCal ⟨2024, 2, 24⟩ [] [matthiasObs] "en"
  have hfire : (rule_st_matthias trivialCal ⟨2024, 2, 24⟩ [] [matthiasObs] "en").isSome = true :=
    h.1.mpr ⟨by decide, by decide, rfl⟩
  exact ⟨hfire, h.2.2.1 rfl hfire⟩

/-- Claim C9: the Marian Saturday rule fires exactly on Saturdays whose
candidate pool is empty or all 4th class; it then celebrates the single
synthesized office whose id follows the liturgical period (Advent;
Nativity-Purification; Purification-Holy-Week via the calendar lookup;
Easter; otherwise the ordinary office) and commemorates at most the
first pre-existing sanctoral candidate (none when there is none). -/
theorem C9_bmv_saturday (cal : Calendar) (d : Date) (t obs : List Observance)
    (lang : String) :
    ((rule_bmv_office_on_saturday cal d t obs lang).isSome ↔
      (d.weekday = 5 ∧ ∀ o ∈ obs, o.rank = 4)) ∧
    (∀ out, rule_bmv_office_on_saturday cal d t obs lang = some out →
      out.celebration =
          [some (mkObservance (calcProperForGivenPeriod cal d t) d lang)] ∧
        out.shifts = [] ∧
        out.commemoration =
          ((obs.filter (fun i => i.flexibility == "sancti")).take 1).map some ∧
        out.commemoration.length ≤ 1 ∧
        ((∀ o ∈ obs, o.flexibility ≠ "sancti") → out.commemoration = [])) ∧
    ((matchFirst t PATTERN_ADVENT).isSome = true →
      calcProperForGivenPeriod cal d t = C_10A) ∧
    ((matchFirst t PATTERN_ADVENT).isSome = false →
      (Date.le ⟨d.year, 12, 25⟩ d || Date.lt d ⟨d.year, 2, 2⟩) = true →
      calcProperForGivenPeriod cal d t = C_10B) ∧
    ((matchFirst t PATTERN_ADVENT).isSome = false →
      (Date.le ⟨d.year, 12, 25⟩ d || Date.lt d ⟨d.year, 2, 2⟩) = false →
      (Date.le ⟨d.year, 2, 2⟩ d &&
        Date.lt d (cal.find_day TEMPORA_QUAD6_3).1) = true →
      calcProperForGivenPeriod cal d t = C_10C) ∧
    ((matchFirst t PATTERN_ADVENT).isSome = false →
      (Date.le ⟨d.year, 12, 25⟩ d || Date.lt d ⟨d.year, 2, 2⟩) = false →
      (Date.le ⟨d.year, 2, 2⟩ d &&
        Date.lt d (cal.find_day TEMPORA_QUAD6_3).1) = false →
      (matchFirst t PATTERN_EASTER).isSome = true →
      calcProperForGivenPeriod cal d t = C_10PASC) ∧
    ((matchFirst t PATTERN_ADVENT).isSome = false →
      (Date.le ⟨d.year, 12, 25⟩ d || Date.lt d ⟨d.year, 2, 2⟩) = false →
      (Date.le ⟨d.year, 2, 2⟩ d &&
        Date.lt d (cal.find_day TEMPORA_QUAD6_3).1) = false →
      (matchFirst t PATTERN_EASTER).isSome = false →
      calcProperForGivenPeriod cal d t = C_10T) := by
  refine ⟨?_, ?_, ?_, ?_, ?_, ?_, ?_⟩
  · simp only [rule_bmv_office_on_saturday]
    split
    · rename_i hsat
      split
      · rename_i hrank
        simp only [Option.isSome_some, true_iff]
        refine ⟨by simpa using hsat, ?_⟩
        intro o ho
        have := (dedup_cond_iff (obs.map (fun i => i.rank))).mp (by
          simpa [List.isEmpty_iff] using hrank)
        exact this o.rank (List.mem_map.mpr ⟨o, ho, rfl⟩)
      · rename_i hrank
        simp only [Option.isSome_none, Bool.false_eq_true, false_iff]
        intro ⟨_, hall⟩
        apply hrank
        have : ∀ x ∈ obs.map (fun i => i.rank), x = 4 := by
          intro x hx
          rcases List.mem_map.mp hx with ⟨o, ho, rfl⟩
          exact hall o ho
        have := (dedup_cond_iff (obs.map (fun i => i.rank))).mpr this
        simpa [List.isEmpty_iff] using this
    · rename_i hsat
      simp only [Option.isSome_none, Bool.false_eq_true, false_iff]
      intro ⟨h5, _⟩
      exact hsat (by simpa using h5)
  · intro out h
    simp only [rule_bmv_office_on_saturday] at h
    split at h
    · split at h
      · cases h
        refine ⟨rfl, rfl, rfl, ?_, ?_⟩
        · simp [List.length_take]
        · intro hnone
          have : obs.filter (fun i => i.flexibility == "sancti") = [] := by
            rw [List.filter_eq_nil_iff]
            intro o ho
            simpa using hnone o ho
          simp [this]
      · cases h
    · cases h
  · intro h
    simp only [calcProperForGivenPeriod, h]
    rfl
  · intro h1 h2
    simp only [calcProperForGivenPeriod, h1, h2]
    rfl
  · intro h1 h2 h3
    simp only [calcProperForGivenPeriod, h1, h2, h3]
    rfl
  · intro h1 h2 h3 h4
    simp only [calcProperForGivenPeriod, h1, h2, h3, h4]
    rfl
  · intro h1 h2 h3 h4
    simp only [calcProperForGivenPeriod, h1, h2, h3, h4]
    rfl

/-- Claim C9 (witness): the theorem at a concrete Advent Saturday with
one 4th-class sanctoral candidate. -/
theorem C9_witness :
    (rule_bmv_office_on_saturday trivialCal ⟨2025, 12, 6⟩ [adventFeria] [sanct1]
        "en").isSome = true ∧
    (⟨[some (mkObservance C_10A ⟨2025, 12, 6⟩ "en")], [some sanct1], []⟩ :
        Outcome).commemoration.length ≤ 1 ∧
    calcProperForGivenPeriod trivialCal ⟨2025, 12, 6⟩ [adventFeria] = C_10A := by
  have h := C9_bmv_saturday trivialCal ⟨2025, 12, 6⟩ [adventFeria] [sanct1] "en"
  refine ⟨h.1.mpr ⟨by decide, by decide⟩, ?_, h.2.2.1 (by decide)⟩
  exact (h.2.1 ⟨[some (mkObservance C_10A ⟨2025, 12, 6⟩ "en")], [some sanct1], []⟩
    (by decide)).2.2.2.1

/-- Claim C10: with three or more rank-1 candidates (pairwise distinct
priorities), the collision rule keeps exactly the two lowest-priority
ones — lowest as celebration, second-lowest as the single shifted
observance — and every further rank-1 candidate appears nowhere in the
outcome. -/
theorem C10_extra_first_class_dropped (cal : Calendar) (d : Date)
    (t obs : List Observance) (lang : String)
    (hmany : 3 ≤ (obs.filter (fun ld => ld.rank == 1)).length)
    (hdist : (obs.filter (fun ld => ld.rank == 1)).Pairwise
      (fun a b => a.priority ≠ b.priority)) :
    ∃ c s, c ∈ obs.filter (fun ld => ld.rank == 1) ∧
      s ∈ obs.filter (fun ld => ld.rank == 1) ∧
      (∀ o ∈ obs.filter (fun ld => ld.rank == 1), o ≠ c → c.priority < o.priority) ∧
      (∀ o ∈ obs.filter (fun ld => ld.rank == 1), o ≠ c → o ≠ s →
        s.priority < o.priority) ∧
      ∃ out, rule_shift_conflicting_1st_class_feasts cal d t obs lang = some out ∧
        out.celebration = [some c] ∧ out.commemoration = [] ∧
        out.shifts.map Prod.snd = [[some s]] ∧
        (∀ o ∈ obs.filter (fun ld => ld.rank == 1), o ≠ c → o ≠ s →
          ¬ outcomeMentions out o) := by
  have hlen : (List.insertionSort prioLe (obs.filter (fun ld => ld.rank == 1))).length =
      (obs.filter (fun ld => ld.rank == 1)).length :=
    insertionSort_length prioLe _
  match hs : List.insertionSort prioLe (obs.filter (fun ld => ld.rank == 1)) with
  | [] => rw [hs] at hlen; simp at hlen; omega
  | [x] => rw [hs] at hlen; simp at hlen; omega
  | c :: s :: rest =>
    obtain ⟨hc, hsmem, hcs, hcmin, hsmin⟩ := sortedTwoHead hdist hs
    refine ⟨c, s, hc, hsmem, hcmin, hsmin,
      ⟨[some c], [], [(calcTargetDate cal d, [some s])]⟩, ?_, rfl, rfl, rfl, ?_⟩
    · simp only [rule_shift_conflicting_1st_class_feasts]
      rw [if_pos (by omega), hs]
    · intro o ho hoc hos
      intro hmen
      rcases hmen with hm | hm | ⟨p, hp, hm⟩
      · simp only [List.mem_singleton, Option.some_inj] at hm
        exact hoc hm
      · simp at hm
      · simp only [List.mem_singleton] at hp
        subst hp
        simp only [List.mem_singleton, Option.some_inj] at hm
        exact hos hm

/-- Claim C10 (witness): the theorem applied to three conflicting
1st-class feasts. -/
theorem C10_witness :
    ∃ c s, c ∈ ([feast3, feast1, feast2].filter (fun ld => ld.rank == 1)) ∧
      s ∈ ([feast3, feast1, feast2].filter (fun ld => ld.rank == 1)) ∧
      (∀ o ∈ ([feast3, feast1, feast2].filter (fun ld => ld.rank == 1)), o ≠ c →
        c.priority < o.priority) ∧
      (∀ o ∈ ([feast3, feast1, feast2].filter (fun ld => ld.rank == 1)), o ≠ c →
        o ≠ s → s.priority < o.priority) ∧
      ∃ out, rule_shift_conflicting_1st_class_feasts trivialCal ⟨2025, 12, 30⟩ []
          [feast3, feast1, feast2] "en" = some out ∧
        out.celebration = [some c] ∧ out.commemoration = [] ∧
        out.shifts.map Prod.snd = [[some s]] ∧
        (∀ o ∈ ([feast3, feast1, feast2].filter (fun ld => ld.rank == 1)), o ≠ c →
          o ≠ s → ¬ outcomeMentions out o) :=
  C10_extra_first_class_dropped trivialCal ⟨2025, 12, 30⟩ [] [feast3, feast1, feast2]
    "en" (by decide) (by decide)

/-- Claim C6 (witness): the amended theorem applied at nominal dates:
All Souls on Sunday Nov 2, 2025; the leap-year rules on Feb 24 / Feb 27,
2024; the collision rule on Dec 30, 2025 over a free calendar; and the
default rule producing no shift. -/
theorem C6_witness :
    Date.lt ⟨2025, 11, 2⟩ ⟨2025, 11, 3⟩ = true ∧
    Date.lt ⟨2024, 2, 24⟩ ⟨2024, 2, 25⟩ = true ∧
    Date.lt ⟨2024, 2, 27⟩ ⟨2024, 2, 28⟩ = true ∧
    Date.lt ⟨2025, 12, 30⟩ ⟨2025, 12, 31⟩ = true ∧
    (⟨[], [], []⟩ : Outcome).shifts = [] := by
  obtain ⟨h1, h2, h3, h4, h5⟩ := C6_amended
  refine ⟨?_, ?_, ?_, ?_, ?_⟩
  · exact h1 trivialCal 2025 [] [allSoulsM1, advent1Sunday] "en"
      ⟨[some advent1Sunday], [], [(some ⟨2025, 11, 3⟩, [some allSoulsM1])]⟩
      (by decide) (some ⟨2025, 11, 3⟩, [some allSoulsM1]) (by simp) ⟨2025, 11, 3⟩ rfl
  · exact h2 trivialCal ⟨2024, 2, 24⟩ [] [matthiasObs] "en"
      ⟨[none], [], [(some ⟨2024, 2, 25⟩, [some matthiasObs])]⟩ rfl
      (by decide) (some ⟨2024, 2, 25⟩, [some matthiasObs]) (by simp) ⟨2024, 2, 25⟩ rfl
  · exact h3 trivialCal ⟨2024, 2, 27⟩ [] [feb27Obs] "en"
      ⟨[none], [], [(some ⟨2024, 2, 28⟩, [some feb27Obs])]⟩ rfl
      (by decide) (some ⟨2024, 2, 28⟩, [some feb27Obs]) (by simp) ⟨2024, 2, 28⟩ rfl
  · exact h4 trivialCal ⟨2025, 12, 30⟩ [] [feast1, feast2] "en"
      ⟨[some feast1], [], [(some ⟨2025, 12, 31⟩, [some feast2])]⟩
      (by decide) (some ⟨2025, 12, 31⟩, [some feast2]) (by simp) ⟨2025, 12, 31⟩ rfl
  · exact h5 rule_precedence (by simp [noShiftRules]) trivialCal ⟨2025, 1, 2⟩ [] []
      "en" ⟨[], [], []⟩ (by decide)

end Missal
